import Mathlib

/-!
Verification of the argon2-hashing password-hashing wrapper (Go).

The embedding models bytes as natural numbers below 256, text as `List Char`,
and the Go functions of `argon2.go` (`GenerateFromPassword`,
`CompareHashAndPassword`, `decodeHash`, `subtle.ConstantTimeCompare`,
`strconv.Atoi`, `strings.Split`, `base64.RawStdEncoding`) as executable Lean
functions.  The Argon2id derivation primitive (`argon2.IDKey` of
golang.org/x/crypto) is external to the repository and is modelled as an
explicit function argument; the random salt produced by `GenerateRandomBytes`
is likewise passed in explicitly.
-/

set_option autoImplicit false

deriving instance DecidableEq for Except

namespace Argon2Hashing

/-- Split of Go's strings.Split on the single-character separator: split a
character list on the dollar separator.
Splitting the empty string yields one empty field, and `n` separators yield
`n + 1` fields, exactly as Go's `strings.Split`. -/
def splitD : List Char → List (List Char)
  | [] => [[]]
  | c :: rest =>
    if c = '$' then [] :: splitD rest
    else (c :: (splitD rest).headD []) :: (splitD rest).tail

/-- Value of a decimal digit character, `none` for any other character. -/
def digitVal (c : Char) : Option Nat :=
  if '0' ≤ c ∧ c ≤ '9' then some (c.toNat - 48) else none

/-- Accumulating decimal parse: fails on the first non-digit character. -/
def parseDigitsAux : List Char → Nat → Option Nat
  | [], acc => some acc
  | c :: rest, acc =>
    match digitVal c with
    | none => none
    | some d => parseDigitsAux rest (acc * 10 + d)

/-- Shared body of `atoi` after the optional sign has been consumed:
a non-empty run of decimal digits whose signed value must fit in the
64-bit `int` range, as in Go's `strconv.ParseInt(s, 10, 0)`. -/
def atoiCore (sign : Int) (digits : List Char) : Option Int :=
  match digits with
  | [] => none
  | _ :: _ =>
    match parseDigitsAux digits 0 with
    | none => none
    | some n =>
      let v : Int := sign * (n : Int)
      if -(2 ^ 63) ≤ v ∧ v ≤ 2 ^ 63 - 1 then some v else none

/-- Model of Go's strconv.Atoi: optional leading sign, then decimal digits;
fails on the empty string, on any non-digit, and on values outside the
64-bit `int` range. -/
def atoi (s : List Char) : Option Int :=
  match s with
  | [] => none
  | c :: rest =>
    if c = '-' then atoiCore (-1) rest
    else if c = '+' then atoiCore 1 rest
    else atoiCore 1 (c :: rest)

/-- Index of a character in the standard base64 alphabet
`A-Z a-z 0-9 + /`, `none` for characters outside the alphabet. -/
def b64Val (c : Char) : Option Nat :=
  if 'A' ≤ c ∧ c ≤ 'Z' then some (c.toNat - 65)
  else if 'a' ≤ c ∧ c ≤ 'z' then some (c.toNat - 97 + 26)
  else if '0' ≤ c ∧ c ≤ '9' then some (c.toNat - 48 + 52)
  else if c = '+' then some 62
  else if c = '/' then some 63
  else none

/-- Character of the standard base64 alphabet at index `v` (for `v < 64`). -/
def b64Char (v : Nat) : Char :=
  if v < 26 then Char.ofNat (65 + v)
  else if v < 52 then Char.ofNat (97 + (v - 26))
  else if v < 62 then Char.ofNat (48 + (v - 52))
  else if v = 62 then '+' else '/'

/-- Model of base64.RawStdEncoding.EncodeToString: unpadded standard base64.
Each full group of three bytes becomes four characters; a final group of
one or two bytes becomes two or three characters. -/
def b64EncodeRaw : List Nat → List Char
  | [] => []
  | [b0] => [b64Char (b0 / 4), b64Char (b0 % 4 * 16)]
  | [b0, b1] =>
    [b64Char (b0 / 4), b64Char (b0 % 4 * 16 + b1 / 16), b64Char (b1 % 16 * 4)]
  | b0 :: b1 :: b2 :: rest =>
    b64Char (b0 / 4) :: b64Char (b0 % 4 * 16 + b1 / 16) ::
      b64Char (b1 % 16 * 4 + b2 / 64) :: b64Char (b2 % 64) :: b64EncodeRaw rest

/-- Group-wise unpadded base64 decoding.  A trailing group of one character
is malformed; groups of two or three characters yield one or two bytes with
the unused trailing bits discarded (Go's default, non-strict decoder). -/
def b64DecodeGroups : List Char → Option (List Nat)
  | [] => some []
  | [_] => none
  | [c1, c2] =>
    match b64Val c1, b64Val c2 with
    | some v1, some v2 => some [v1 * 4 + v2 / 16]
    | _, _ => none
  | [c1, c2, c3] =>
    match b64Val c1, b64Val c2, b64Val c3 with
    | some v1, some v2, some v3 =>
      some [v1 * 4 + v2 / 16, v2 % 16 * 16 + v3 / 4]
    | _, _, _ => none
  | c1 :: c2 :: c3 :: c4 :: rest =>
    match b64Val c1, b64Val c2, b64Val c3, b64Val c4, b64DecodeGroups rest with
    | some v1, some v2, some v3, some v4, some bs =>
      some ((v1 * 4 + v2 / 16) :: (v2 % 16 * 16 + v3 / 4) :: (v3 % 4 * 64 + v4) :: bs)
    | _, _, _, _, _ => none

/-- Model of base64.RawStdEncoding.DecodeString: Go's decoder silently skips
carriage returns and newlines, then decodes the remaining characters in
groups of four. -/
def b64Decode (s : List Char) : Option (List Nat) :=
  b64DecodeGroups (s.filter (fun c => !(c == '\r' || c == '\n')))

/-- Decimal digits of `n`, most significant first, with explicit fuel
(the fuel `n + 1` always suffices). -/
def natDigitsAux : Nat → Nat → List Char
  | 0, _ => []
  | fuel + 1, n =>
    if n < 10 then [Char.ofNat (48 + n)]
    else natDigitsAux fuel (n / 10) ++ [Char.ofNat (48 + n % 10)]

/-- Decimal rendering of an unsigned integer, as produced by `fmt.Sprintf`
with the `%d` verb on Go's unsigned types. -/
def natDigits (n : Nat) : List Char :=
  natDigitsAux (n + 1) n

/-- The `Params` struct of argon2.go.  The Go field types are `uint32` for
`Memory`, `Iterations`, `SaltLength`, `KeyLength` and `uint8` for `Threads`;
the corresponding range facts appear as hypotheses where they matter. -/
structure Params where
  Memory : Nat
  Iterations : Nat
  Threads : Nat
  SaltLength : Nat
  KeyLength : Nat
  deriving DecidableEq

/-- The error values declared in argon2.go, plus the invalid-parameters
error of the validation step (§7 of the spec). -/
inductive ArgonError where
  | invalidHash
  | incompatibleVersion
  | mismatchedHashAndPassword
  | invalidParams
  deriving DecidableEq

/-- Outcome of `CompareHashAndPassword`.  The source's `log.Fatal(err)` on a
decode failure prints the error and terminates the calling process; that
control flow is modelled by the distinct `fatal` outcome, which never
reaches the caller as a return value. -/
inductive CompareResult where
  | ok
  | err (e : ArgonError)
  | fatal (e : ArgonError)
  deriving DecidableEq

/-- Version constant argon2.Version of golang.org/x/crypto (Argon2 v1.3,
decimal 19). -/
def argon2Version : Nat := 19

/-- The minimum allowed memory amount in KiB, as declared in argon2.go
(`minMemoryValue = 32 * 1024`).  Note the divergence recorded under claim
C1: the spec (§4.1) gives the memory floor as 8192 KiB, and the
repository's own `TestParams_Check` and `TestGenerateFromPassword`
minimum-values cases expect memory `8 * 1024` to pass validation, but the
declared constant rejects everything below 32768. -/
def minMemoryValue : Nat := 32 * 1024

/-- The minimum time passes over the memory (argon2.go constant). -/
def minIteration : Nat := 1

/-- The minimum number of threads (argon2.go constant). -/
def minThreads : Nat := 1

/-- The minimum derived key length in bytes (argon2.go constant). -/
def minKeyLength : Nat := 16

/-- The minimum allowed salt length in bytes (argon2.go constant). -/
def minSaltLength : Nat := 8

/-- Modelled from the spec: `Params.Check` (§4.1), the standalone
minimum-floor validation exercised by `TestParams_Check` and called by
`GenerateFromPassword`; the function body is absent from the provided
source snapshots, while the five minimum constants it compares against are
the ones declared in argon2.go.  All floors must hold, and failure is the
single invalid-parameters error. -/
def Params.Check (p : Params) : Except ArgonError Unit :=
  if p.Memory < minMemoryValue ∨ p.Iterations < minIteration ∨
      p.Threads < minThreads ∨ p.SaltLength < minSaltLength ∨
      p.KeyLength < minKeyLength then
    .error .invalidParams
  else
    .ok ()

/-- The external Argon2id derivation primitive `argon2.IDKey`, as a function
of (password, salt, iterations, memory, threads, keyLength). -/
abbrev IDKey := List Nat → List Nat → Nat → Nat → Nat → Nat → List Nat

/-- The loop of `subtle.ConstantTimeCompare`: fold the bitwise OR of the
bytewise XORs, returning both the accumulated value and the number of loop
iterations executed (the structural cost of the comparison). -/
def ctcLoop : List Nat → List Nat → Nat → Nat × Nat
  | [], _, v => (v, 0)
  | _ :: _, [], v => (v, 0)
  | a :: xs, b :: ys, v =>
    let r := ctcLoop xs ys (v ||| (a ^^^ b))
    (r.1, r.2 + 1)

/-- Model of subtle.ConstantTimeCompare: 1 when the two byte slices have equal
length and equal contents, 0 otherwise. -/
def ConstantTimeCompare (x y : List Nat) : Nat :=
  if x.length = y.length then
    if (ctcLoop x y 0).1 = 0 then 1 else 0
  else 0

/-- Number of loop iterations `subtle.ConstantTimeCompare` executes on the
given inputs (zero when the length guard rejects immediately). -/
def constantTimeCompareSteps (x y : List Nat) : Nat :=
  if x.length = y.length then (ctcLoop x y 0).2 else 0

/-- The token composed by `GenerateFromPassword`:
`fmt.Sprintf("argon2id$%d$%d$%d$%d$%s$%s", argon2.Version, p.Memory,
p.Iterations, p.Threads, b64Salt, b64Hash)`. -/
def encodeToken (p : Params) (salt key : List Nat) : List Char :=
  "argon2id".toList ++ ('$' :: (natDigits argon2Version ++
    ('$' :: (natDigits p.Memory ++ ('$' :: (natDigits p.Iterations ++
    ('$' :: (natDigits p.Threads ++ ('$' :: (b64EncodeRaw salt ++
    ('$' :: b64EncodeRaw key)))))))))))

/-- Model of GenerateFromPassword.  The salt produced by GenerateRandomBytes and
the external `argon2.IDKey` primitive are explicit arguments.  The leading
validation step is modelled from the spec (§4.2 step 1: validate, and on
failure perform no further work); the remainder follows argon2.go: derive
the key, base64-encode salt and key, and compose the 7-field token. -/
def GenerateFromPassword (idKey : IDKey) (password salt : List Nat)
    (p : Params) : Except ArgonError (List Char) :=
  match p.Check with
  | .error e => .error e
  | .ok _ =>
    let key := idKey password salt p.Iterations p.Memory p.Threads p.KeyLength
    .ok (encodeToken p salt key)

/-- Model of decodeHash of argon2.go: split on the dollar separator into
exactly 7 fields, check
the version, parse memory, iterations and parallelism with `strconv.Atoi`
(stored through Go's `uint32`/`uint8` conversions, i.e. reduced modulo
`2^32`/`2^8`), and base64-decode salt and key, recovering their lengths
from the decoded payloads. -/
def decodeHash (encodedHash : List Char) :
    Except ArgonError (Params × List Nat × List Nat) :=
  let vals := splitD encodedHash
  if vals.length = 7 then
    match atoi (vals.getD 1 []) with
    | none => .error .invalidHash
    | some version =>
      if version ≠ (argon2Version : Int) then .error .incompatibleVersion
      else
        match atoi (vals.getD 2 []) with
        | none => .error .invalidHash
        | some memory =>
          match atoi (vals.getD 3 []) with
          | none => .error .invalidHash
          | some iterations =>
            match atoi (vals.getD 4 []) with
            | none => .error .invalidHash
            | some parallelism =>
              match b64Decode (vals.getD 5 []) with
              | none => .error .invalidHash
              | some salt =>
                match b64Decode (vals.getD 6 []) with
                | none => .error .invalidHash
                | some key =>
                  .ok ({ Memory := (memory % (2 ^ 32 : Int)).toNat,
                         Iterations := (iterations % (2 ^ 32 : Int)).toNat,
                         Threads := (parallelism % (2 ^ 8 : Int)).toNat,
                         SaltLength := salt.length,
                         KeyLength := key.length }, salt, key)
  else .error .invalidHash

/-- Model of CompareHashAndPassword of argon2.go: decode the token — a decode
failure reaches `log.Fatal`, modelled as the `fatal` outcome — then
re-derive with the decoded salt and parameters and compare with
`subtle.ConstantTimeCompare`. -/
def CompareHashAndPassword (idKey : IDKey) (hash : List Char)
    (password : List Nat) : CompareResult :=
  match decodeHash hash with
  | .error e => .fatal e
  | .ok (p, salt, key) =>
    let otherHash := idKey password salt p.Iterations p.Memory p.Threads p.KeyLength
    if ConstantTimeCompare key otherHash = 1 then .ok
    else .err .mismatchedHashAndPassword

/-- A concrete stand-in for the external derivation primitive, used only to
instantiate witnesses: length-correct, byte-valued, and sensitive to every
argument. -/
def testIdKey : IDKey := fun password salt iterations memory threads keyLength =>
  (List.range keyLength).map (fun i =>
    (password.foldl (fun a b => a * 31 + b) 7 +
      salt.foldl (fun a b => a * 31 + b) 11 +
      iterations * 3 + memory * 5 + threads * 7 + i) % 256)

/-! ### Splitting lemmas -/

theorem splitD_ne_nil (s : List Char) : splitD s ≠ [] := by
  cases s with
  | nil => simp [splitD]
  | cons c rest =>
    simp only [splitD]
    split <;> simp

theorem splitD_no_dollar (a : List Char) (h : '$' ∉ a) : splitD a = [a] := by
  induction a with
  | nil => rfl
  | cons c rest ih =>
    simp only [List.mem_cons, not_or] at h
    simp [splitD, Ne.symm h.1, ih h.2]

theorem splitD_append (a b : List Char) (h : '$' ∉ a) :
    splitD (a ++ '$' :: b) = a :: splitD b := by
  induction a with
  | nil => simp [splitD]
  | cons c rest ih =>
    simp only [List.mem_cons, not_or] at h
    simp [splitD, Ne.symm h.1, ih h.2]

/-! ### Decimal rendering and parsing lemmas -/

theorem digit_char_spec : ∀ d, d < 10 →
    digitVal (Char.ofNat (48 + d)) = some d ∧
    Char.ofNat (48 + d) ≠ '$' ∧ Char.ofNat (48 + d) ≠ '-' ∧
    Char.ofNat (48 + d) ≠ '+' ∧ Char.ofNat (48 + d) ≠ '\r' ∧
    Char.ofNat (48 + d) ≠ '\n' := by decide

theorem natDigitsAux_chars : ∀ fuel n c, c ∈ natDigitsAux fuel n →
    ∃ d, d < 10 ∧ c = Char.ofNat (48 + d) := by
  intro fuel
  induction fuel with
  | zero => intro n c hc; simp [natDigitsAux] at hc
  | succ f ih =>
    intro n c hc
    by_cases h : n < 10
    · rw [natDigitsAux, if_pos h] at hc
      simp only [List.mem_singleton] at hc
      exact ⟨n, h, hc⟩
    · rw [natDigitsAux, if_neg h] at hc
      rcases List.mem_append.mp hc with hl | hr
      · exact ih _ _ hl
      · simp only [List.mem_singleton] at hr
        exact ⟨n % 10, Nat.mod_lt _ (by omega), hr⟩

theorem natDigits_chars (n : Nat) : ∀ c ∈ natDigits n,
    ∃ d, d < 10 ∧ c = Char.ofNat (48 + d) :=
  fun c hc => natDigitsAux_chars _ _ c hc

theorem natDigits_no_dollar (n : Nat) : '$' ∉ natDigits n := by
  intro hc
  obtain ⟨d, hd, hcd⟩ := natDigits_chars n _ hc
  exact (digit_char_spec d hd).2.1 hcd.symm

theorem natDigitsAux_ne_nil (f n : Nat) : natDigitsAux (f + 1) n ≠ [] := by
  rw [natDigitsAux]
  split <;> simp

theorem parseDigitsAux_append (xs ys : List Char) (acc : Nat) :
    parseDigitsAux (xs ++ ys) acc =
      match parseDigitsAux xs acc with
      | none => none
      | some m => parseDigitsAux ys m := by
  induction xs generalizing acc with
  | nil => rfl
  | cons c rest ih =>
    simp only [List.cons_append, parseDigitsAux]
    cases digitVal c with
    | none => rfl
    | some d => exact ih _

theorem natDigitsAux_parse : ∀ fuel n, n < fuel →
    ∃ k, 0 < k ∧ ∀ acc, parseDigitsAux (natDigitsAux fuel n) acc = some (acc * k + n) := by
  intro fuel
  induction fuel with
  | zero => intro n h; omega
  | succ f ih =>
    intro n hn
    by_cases h : n < 10
    · refine ⟨10, by omega, fun acc => ?_⟩
      rw [natDigitsAux, if_pos h]
      simp only [parseDigitsAux, (digit_char_spec n h).1]
    · have hrec : n / 10 < f := by omega
      obtain ⟨k, hk, hparse⟩ := ih (n / 10) hrec
      refine ⟨k * 10, by omega, fun acc => ?_⟩
      rw [natDigitsAux, if_neg h, parseDigitsAux_append, hparse acc]
      simp only [parseDigitsAux, (digit_char_spec (n % 10) (Nat.mod_lt _ (by omega))).1]
      congr 1
      rw [← mul_assoc]
      generalize acc * k = t
      omega

theorem atoi_natDigits (n : Nat) (h : n < 2 ^ 63) : atoi (natDigits n) = some (n : Int) := by
  obtain ⟨k, hk, hparse⟩ := natDigitsAux_parse (n + 1) n (by omega)
  obtain ⟨c, rest, hcons⟩ : ∃ c rest, natDigitsAux (n + 1) n = c :: rest := by
    cases hcase : natDigitsAux (n + 1) n with
    | nil => exact absurd hcase (natDigitsAux_ne_nil n n)
    | cons c rest => exact ⟨c, rest, rfl⟩
  have hc : c ∈ natDigitsAux (n + 1) n := by rw [hcons]; exact List.mem_cons_self _ _
  obtain ⟨d, hd, hcd⟩ := natDigitsAux_chars (n + 1) n c hc
  have spec := digit_char_spec d hd
  rw [show natDigits n = c :: rest from hcons, atoi,
    if_neg (by rw [hcd]; exact spec.2.2.1), if_neg (by rw [hcd]; exact spec.2.2.2.1)]
  rw [atoiCore, show parseDigitsAux (c :: rest) 0 = some (0 * k + n) from hcons ▸ hparse 0]
  simp only [Nat.zero_mul, Nat.zero_add, one_mul]
  rw [if_pos (by constructor <;> omega)]

/-! ### Base64 lemmas -/

theorem b64Char_spec : ∀ v, v < 64 →
    b64Val (b64Char v) = some v ∧ b64Char v ≠ '$' ∧
    b64Char v ≠ '\r' ∧ b64Char v ≠ '\n' := by decide

theorem b64EncodeRaw_chars : ∀ bs : List Nat, (∀ b ∈ bs, b < 256) →
    ∀ c ∈ b64EncodeRaw bs, ∃ v, v < 64 ∧ c = b64Char v
  | [], _, c, hc => by simp [b64EncodeRaw] at hc
  | [b0], h, c, hc => by
    have hb0 : b0 < 256 := h b0 (by simp)
    simp only [b64EncodeRaw, List.mem_cons, List.not_mem_nil, or_false] at hc
    rcases hc with rfl | rfl
    · exact ⟨b0 / 4, by omega, rfl⟩
    · exact ⟨b0 % 4 * 16, by omega, rfl⟩
  | [b0, b1], h, c, hc => by
    have hb0 : b0 < 256 := h b0 (by simp)
    have hb1 : b1 < 256 := h b1 (by simp)
    simp only [b64EncodeRaw, List.mem_cons, List.not_mem_nil, or_false] at hc
    rcases hc with rfl | rfl | rfl
    · exact ⟨b0 / 4, by omega, rfl⟩
    · exact ⟨b0 % 4 * 16 + b1 / 16, by omega, rfl⟩
    · exact ⟨b1 % 16 * 4, by omega, rfl⟩
  | b0 :: b1 :: b2 :: rest, h, c, hc => by
    have hb0 : b0 < 256 := h b0 (by simp)
    have hb1 : b1 < 256 := h b1 (by simp)
    have hb2 : b2 < 256 := h b2 (by simp)
    simp only [b64EncodeRaw, List.mem_cons] at hc
    rcases hc with rfl | rfl | rfl | rfl | hmem
    · exact ⟨b0 / 4, by omega, rfl⟩
    · exact ⟨b0 % 4 * 16 + b1 / 16, by omega, rfl⟩
    · exact ⟨b1 % 16 * 4 + b2 / 64, by omega, rfl⟩
    · exact ⟨b2 % 64, by omega, rfl⟩
    · exact b64EncodeRaw_chars rest (fun b hb => h b (by simp [hb])) c hmem

theorem b64DecodeGroups_encode : ∀ bs : List Nat, (∀ b ∈ bs, b < 256) →
    b64DecodeGroups (b64EncodeRaw bs) = some bs
  | [], _ => rfl
  | [b0], h => by
    have hb0 : b0 < 256 := h b0 (by simp)
    simp only [b64EncodeRaw, b64DecodeGroups,
      (b64Char_spec (b0 / 4) (by omega)).1, (b64Char_spec (b0 % 4 * 16) (by omega)).1]
    exact congrArg (fun x => some [x]) (by omega)
  | [b0, b1], h => by
    have hb0 : b0 < 256 := h b0 (by simp)
    have hb1 : b1 < 256 := h b1 (by simp)
    simp only [b64EncodeRaw, b64DecodeGroups,
      (b64Char_spec (b0 / 4) (by omega)).1,
      (b64Char_spec (b0 % 4 * 16 + b1 / 16) (by omega)).1,
      (b64Char_spec (b1 % 16 * 4) (by omega)).1]
    have e0 : b0 / 4 * 4 + (b0 % 4 * 16 + b1 / 16) / 16 = b0 := by omega
    have e1 : (b0 % 4 * 16 + b1 / 16) % 16 * 16 + b1 % 16 * 4 / 4 = b1 := by omega
    rw [e0, e1]
  | b0 :: b1 :: b2 :: rest, h => by
    have hb0 : b0 < 256 := h b0 (by simp)
    have hb1 : b1 < 256 := h b1 (by simp)
    have hb2 : b2 < 256 := h b2 (by simp)
    have hrest := b64DecodeGroups_encode rest (fun b hb => h b (by simp [hb]))
    simp only [b64EncodeRaw, b64DecodeGroups, hrest,
      (b64Char_spec (b0 / 4) (by omega)).1,
      (b64Char_spec (b0 % 4 * 16 + b1 / 16) (by omega)).1,
      (b64Char_spec (b1 % 16 * 4 + b2 / 64) (by omega)).1,
      (b64Char_spec (b2 % 64) (by omega)).1]
    have e0 : b0 / 4 * 4 + (b0 % 4 * 16 + b1 / 16) / 16 = b0 := by omega
    have e1 : (b0 % 4 * 16 + b1 / 16) % 16 * 16 + (b1 % 16 * 4 + b2 / 64) / 4 = b1 := by
      omega
    have e2 : (b1 % 16 * 4 + b2 / 64) % 4 * 64 + b2 % 64 = b2 := by omega
    rw [e0, e1, e2]

theorem b64EncodeRaw_no_dollar (bs : List Nat) (h : ∀ b ∈ bs, b < 256) :
    '$' ∉ b64EncodeRaw bs := by
  intro hc
  obtain ⟨v, hv, hcv⟩ := b64EncodeRaw_chars bs h '$' hc
  exact (b64Char_spec v hv).2.1 hcv.symm

theorem b64Decode_encode (bs : List Nat) (h : ∀ b ∈ bs, b < 256) :
    b64Decode (b64EncodeRaw bs) = some bs := by
  have hfilter :
      (b64EncodeRaw bs).filter (fun c => !(c == '\r' || c == '\n')) = b64EncodeRaw bs := by
    apply List.filter_eq_self.mpr
    intro c hc
    obtain ⟨v, hv, rfl⟩ := b64EncodeRaw_chars bs h c hc
    have spec := b64Char_spec v hv
    simp [spec.2.2.1, spec.2.2.2]
  rw [b64Decode, hfilter]
  exact b64DecodeGroups_encode bs h

/-! ### Constant-time comparison lemmas -/

theorem lor_eq_zero_iff (m n : Nat) : m ||| n = 0 ↔ m = 0 ∧ n = 0 := by
  constructor
  · intro h
    constructor <;> apply Nat.eq_of_testBit_eq <;> intro i <;>
      have hh := congrArg (fun x => Nat.testBit x i) h
    all_goals simp only [Nat.testBit_or, Nat.zero_testBit, Bool.or_eq_false_iff] at hh
    all_goals simp [hh.1, hh.2]
  · rintro ⟨rfl, rfl⟩; rfl

theorem ctcLoop_self : ∀ (x : List Nat) (v : Nat), (ctcLoop x x v).1 = v
  | [], _ => rfl
  | a :: xs, v => by
    simp only [ctcLoop, Nat.xor_self, Nat.or_zero]
    exact ctcLoop_self xs v

theorem ctcLoop_fst_eq_zero : ∀ (x y : List Nat) (v : Nat), x.length = y.length →
    ((ctcLoop x y v).1 = 0 ↔ v = 0 ∧ x = y)
  | [], [], v, _ => by simp [ctcLoop]
  | [], _ :: _, _, hlen => by simp at hlen
  | _ :: _, [], _, hlen => by simp at hlen
  | a :: xs, b :: ys, v, hlen => by
    have ih := ctcLoop_fst_eq_zero xs ys (v ||| (a ^^^ b)) (by simpa using hlen)
    simp only [ctcLoop]
    rw [ih, lor_eq_zero_iff, Nat.xor_eq_zero]
    constructor
    · rintro ⟨⟨hv, hab⟩, rfl⟩
      exact ⟨hv, by rw [hab]⟩
    · rintro ⟨hv, heq⟩
      injection heq with h1 h2
      exact ⟨⟨hv, h1⟩, h2⟩

theorem ctcLoop_steps : ∀ (x y : List Nat) (v : Nat),
    (ctcLoop x y v).2 = min x.length y.length
  | [], y, v => by simp [ctcLoop]
  | a :: xs, [], v => by simp [ctcLoop]
  | a :: xs, b :: ys, v => by
    simp only [ctcLoop, ctcLoop_steps xs ys, List.length_cons]
    omega

theorem ConstantTimeCompare_eq_one_iff (x y : List Nat) :
    ConstantTimeCompare x y = 1 ↔ x = y := by
  unfold ConstantTimeCompare
  by_cases hlen : x.length = y.length
  · rw [if_pos hlen]
    by_cases hz : (ctcLoop x y 0).1 = 0
    · rw [if_pos hz]
      simp [((ctcLoop_fst_eq_zero x y 0 hlen).mp hz).2]
    · rw [if_neg hz]
      constructor
      · intro h; exact absurd h (by omega)
      · intro heq; subst heq; exact absurd (ctcLoop_self x 0) hz
  · rw [if_neg hlen]
    constructor
    · intro h; exact absurd h (by omega)
    · intro heq; subst heq; exact absurd rfl hlen

/-! ### Decoding an encoded token -/

theorem decodeHash_encodeToken (p : Params) (salt key : List Nat)
    (hmem : p.Memory < 2 ^ 32) (hiter : p.Iterations < 2 ^ 32)
    (hthr : p.Threads < 2 ^ 8)
    (hsalt : ∀ b ∈ salt, b < 256) (hkey : ∀ b ∈ key, b < 256) :
    decodeHash (encodeToken p salt key) =
      .ok ({ Memory := p.Memory, Iterations := p.Iterations, Threads := p.Threads,
             SaltLength := salt.length, KeyLength := key.length }, salt, key) := by
  have hsplit : splitD (encodeToken p salt key) =
      ["argon2id".toList, natDigits argon2Version, natDigits p.Memory,
        natDigits p.Iterations, natDigits p.Threads,
        b64EncodeRaw salt, b64EncodeRaw key] := by
    rw [encodeToken,
      splitD_append _ _ (by decide),
      splitD_append _ _ (natDigits_no_dollar _),
      splitD_append _ _ (natDigits_no_dollar _),
      splitD_append _ _ (natDigits_no_dollar _),
      splitD_append _ _ (natDigits_no_dollar _),
      splitD_append _ _ (b64EncodeRaw_no_dollar salt hsalt),
      splitD_no_dollar _ (b64EncodeRaw_no_dollar key hkey)]
  simp only [decodeHash]
  rw [hsplit]
  simp only [List.getD_cons_zero, List.getD_cons_succ, List.length_cons,
    List.length_nil]
  rw [if_pos (by norm_num)]
  rw [atoi_natDigits argon2Version (by decide),
    atoi_natDigits p.Memory (by omega),
    atoi_natDigits p.Iterations (by omega),
    atoi_natDigits p.Threads (by omega),
    b64Decode_encode salt hsalt,
    b64Decode_encode key hkey]
  simp
  omega

theorem GenerateFromPassword_ok (idKey : IDKey) (password salt : List Nat)
    (p : Params) (hcheck : p.Check = .ok ()) :
    GenerateFromPassword idKey password salt p =
      .ok (encodeToken p salt
        (idKey password salt p.Iterations p.Memory p.Threads p.KeyLength)) := by
  rw [GenerateFromPassword, hcheck]

/-! ### Claim theorems -/

/-- C1: refuted on the staged source for the memory floor.  The claim's
floor values (memory 8192, iterations 1, parallelism 1, salt 8, key 16)
match the spec (§4.1) and the repository's own minimum-values test cases,
but argon2.go declares `minMemoryValue = 32 * 1024`, so validation rejects
every memory cost below 32768: generation at the claim's exact floor
parameter set fails with the invalid-parameters error — for every salt and
every derivation primitive, hence before any salt generation or key
derivation — as does a memory cost of 32767, while 32768 passes.  A
below-8192 parameter set is still rejected, so the claim's failure half
holds; its success-at-8192 half is what the declared constant contradicts. -/
theorem generate_memory_floor_divergence :
    (∀ (idKey : IDKey) (password salt : List Nat),
      GenerateFromPassword idKey password salt ⟨8 * 1024, 1, 1, 8, 16⟩ =
        .error .invalidParams) ∧
    (∀ (idKey : IDKey) (password salt : List Nat),
      GenerateFromPassword idKey password salt ⟨4096, 3, 2, 16, 32⟩ =
        .error .invalidParams) ∧
    (∀ (idKey : IDKey) (password salt : List Nat),
      GenerateFromPassword idKey password salt ⟨32 * 1024 - 1, 1, 1, 8, 16⟩ =
        .error .invalidParams) ∧
    (∀ (idKey : IDKey) (password salt : List Nat), ∃ token,
      GenerateFromPassword idKey password salt ⟨32 * 1024, 1, 1, 8, 16⟩ =
        .ok token) ∧
    Params.Check ⟨8 * 1024, 1, 1, 8, 16⟩ = .error .invalidParams :=
  ⟨fun _ _ _ => rfl, fun _ _ _ => rfl, fun _ _ _ => rfl,
    fun _ _ _ => ⟨_, rfl⟩, rfl⟩

/-- C2: contrary to the claim, a token on which decoding fails does not make
CompareHashAndPassword return the decode error to the caller: the source
calls log.Fatal on the decode error, which terminates the calling process
(the `fatal` outcome).  On the token "abc" (one field, so decoding fails
with the invalid-hash-format error) the comparison reaches the fatal path
for every derivation primitive and every candidate password, and in
particular never produces the corresponding error return value. -/
theorem compare_decode_failure_terminates_process :
    decodeHash "abc".toList = .error .invalidHash ∧
    ∀ (idKey : IDKey) (password : List Nat),
      CompareHashAndPassword idKey "abc".toList password = .fatal .invalidHash ∧
      CompareHashAndPassword idKey "abc".toList password ≠ .err .invalidHash :=
  ⟨by decide, fun idKey password => ⟨rfl, fun h => nomatch h⟩⟩

/-- C3: verifying the token produced by GenerateFromPassword against the
same password succeeds.  The external derivation primitive is assumed to
return byte values of exactly the requested length (as argon2.IDKey does);
the salt has the byte values and length produced by GenerateRandomBytes. -/
theorem generate_then_compare_roundtrip (idKey : IDKey) (password salt : List Nat)
    (p : Params)
    (hcheck : p.Check = .ok ())
    (hsaltlen : salt.length = p.SaltLength)
    (hmem : p.Memory < 2 ^ 32) (hiter : p.Iterations < 2 ^ 32)
    (hthr : p.Threads < 2 ^ 8)
    (hsalt : ∀ b ∈ salt, b < 256)
    (hkeylen : ∀ pw s i m t kl, (idKey pw s i m t kl).length = kl)
    (hkeybytes : ∀ pw s i m t kl, ∀ b ∈ idKey pw s i m t kl, b < 256) :
    ∃ token, GenerateFromPassword idKey password salt p = .ok token ∧
      CompareHashAndPassword idKey token password = .ok := by
  refine ⟨encodeToken p salt
    (idKey password salt p.Iterations p.Memory p.Threads p.KeyLength),
    GenerateFromPassword_ok idKey password salt p hcheck, ?_⟩
  rw [CompareHashAndPassword,
    decodeHash_encodeToken p salt _ hmem hiter hthr hsalt (hkeybytes _ _ _ _ _ _)]
  dsimp only
  rw [hkeylen password salt p.Iterations p.Memory p.Threads p.KeyLength]
  rw [if_pos ((ConstantTimeCompare_eq_one_iff _ _).mpr rfl)]

/-- Witness for C3: a concrete round trip at the source's declared floor
parameters with the concrete test primitive. -/
theorem generate_then_compare_roundtrip_witness :
    ∃ token, GenerateFromPassword testIdKey [1] [9, 8, 7, 6, 5, 4, 3, 2]
        ⟨32 * 1024, 1, 1, 8, 16⟩ = .ok token ∧
      CompareHashAndPassword testIdKey token [1] = .ok :=
  generate_then_compare_roundtrip testIdKey [1] [9, 8, 7, 6, 5, 4, 3, 2]
    ⟨32 * 1024, 1, 1, 8, 16⟩ (by decide) (by decide) (by decide) (by decide)
    (by decide) (by decide)
    (fun pw s i m t kl => by simp [testIdKey])
    (fun pw s i m t kl b hb => by
      simp only [testIdKey, List.mem_map] at hb
      obtain ⟨j, hj, rfl⟩ := hb
      exact Nat.mod_lt _ (by omega))

/-- C4: verifying the token produced by GenerateFromPassword against a
different password fails with the mismatched-hash-and-password error,
provided the external derivation primitive maps the two passwords to
different keys (collision freedom of the black-box primitive, outside the
repository's scope). -/
theorem generate_then_compare_wrong_password (idKey : IDKey)
    (password other salt : List Nat) (p : Params)
    (hne : other ≠ password)
    (hcheck : p.Check = .ok ())
    (hsaltlen : salt.length = p.SaltLength)
    (hmem : p.Memory < 2 ^ 32) (hiter : p.Iterations < 2 ^ 32)
    (hthr : p.Threads < 2 ^ 8)
    (hsalt : ∀ b ∈ salt, b < 256)
    (hkeylen : ∀ pw s i m t kl, (idKey pw s i m t kl).length = kl)
    (hkeybytes : ∀ pw s i m t kl, ∀ b ∈ idKey pw s i m t kl, b < 256)
    (hcoll : idKey other salt p.Iterations p.Memory p.Threads p.KeyLength ≠
      idKey password salt p.Iterations p.Memory p.Threads p.KeyLength) :
    ∀ token, GenerateFromPassword idKey password salt p = .ok token →
      CompareHashAndPassword idKey token other = .err .mismatchedHashAndPassword := by
  intro token htoken
  rw [GenerateFromPassword_ok idKey password salt p hcheck] at htoken
  injection htoken with htok
  subst htok
  rw [CompareHashAndPassword,
    decodeHash_encodeToken p salt _ hmem hiter hthr hsalt (hkeybytes _ _ _ _ _ _)]
  dsimp only
  rw [hkeylen password salt p.Iterations p.Memory p.Threads p.KeyLength]
  rw [if_neg (fun hone =>
    hcoll ((ConstantTimeCompare_eq_one_iff _ _).mp hone).symm)]

/-- Witness for C4: a concrete mismatch at the source's declared floor
parameters with the concrete test primitive, whose derived keys for the two
passwords differ. -/
theorem generate_then_compare_wrong_password_witness :
    CompareHashAndPassword testIdKey
      (encodeToken ⟨32 * 1024, 1, 1, 8, 16⟩ [9, 8, 7, 6, 5, 4, 3, 2]
        (testIdKey [1] [9, 8, 7, 6, 5, 4, 3, 2] 1 (32 * 1024) 1 16)) [2] =
      .err .mismatchedHashAndPassword :=
  generate_then_compare_wrong_password testIdKey [1] [2] [9, 8, 7, 6, 5, 4, 3, 2]
    ⟨32 * 1024, 1, 1, 8, 16⟩ (by decide) (by decide) (by decide) (by decide)
    (by decide) (by decide) (by decide)
    (fun pw s i m t kl => by simp [testIdKey])
    (fun pw s i m t kl b hb => by
      simp only [testIdKey, List.mem_map] at hb
      obtain ⟨j, hj, rfl⟩ := hb
      exact Nat.mod_lt _ (by omega))
    (by decide) _ rfl

/-- C8: the comparison CompareHashAndPassword performs on a decoded token is
subtle.ConstantTimeCompare, and the number of comparison-loop iterations
depends only on the lengths of the two byte slices, not on where or whether
the first mismatching byte occurs. -/
theorem compare_comparison_constant_time :
    (∀ (idKey : IDKey) (hash : List Char) (password : List Nat)
        (p : Params) (s k : List Nat), decodeHash hash = .ok (p, s, k) →
      (CompareHashAndPassword idKey hash password = .ok ↔
        ConstantTimeCompare k
          (idKey password s p.Iterations p.Memory p.Threads p.KeyLength) = 1)) ∧
    (∀ x y x' y' : List Nat, x.length = y.length → x'.length = y'.length →
      x.length = x'.length →
      constantTimeCompareSteps x y = constantTimeCompareSteps x' y') := by
  constructor
  · intro idKey hash password p s k hdec
    rw [CompareHashAndPassword, hdec]
    dsimp only
    by_cases hone : ConstantTimeCompare k
        (idKey password s p.Iterations p.Memory p.Threads p.KeyLength) = 1
    · rw [if_pos hone]; simp [hone]
    · rw [if_neg hone]; simp [hone]
  · intro x y x' y' h1 h2 h3
    rw [constantTimeCompareSteps, constantTimeCompareSteps, if_pos h1, if_pos h2,
      ctcLoop_steps, ctcLoop_steps]
    omega

/-- Witness for C8: the comparison characterization on a concrete decoded
token, and equal loop counts for an all-equal pair and an all-different pair
of the same length. -/
theorem compare_comparison_constant_time_witness :
    (CompareHashAndPassword testIdKey "argon2id$19$1$1$1$AA$AA".toList [5] = .ok ↔
      ConstantTimeCompare [0] (testIdKey [5] [0] 1 1 1 1) = 1) ∧
    constantTimeCompareSteps [1, 2] [1, 2] = constantTimeCompareSteps [3, 4] [5, 6] :=
  ⟨compare_comparison_constant_time.1 testIdKey _ [5] ⟨1, 1, 1, 1, 1⟩ [0] [0]
      (by decide),
    compare_comparison_constant_time.2 [1, 2] [1, 2] [3, 4] [5, 6] rfl rfl rfl⟩

/-- C5: for every token whose version field parses as an integer different
from the supported version 19, decodeHash fails with the
incompatible-version error; for every token whose version field is
non-numeric it fails with the invalid-hash-format error; the two error
values are distinct. -/
theorem decode_version_errors :
    (∀ t : List Char, (splitD t).length = 7 →
      ((∀ v : Int, atoi ((splitD t).getD 1 []) = some v → v ≠ 19 →
          decodeHash t = .error .incompatibleVersion) ∧
        (atoi ((splitD t).getD 1 []) = none →
          decodeHash t = .error .invalidHash))) ∧
    ArgonError.incompatibleVersion ≠ ArgonError.invalidHash := by
  refine ⟨fun t hlen => ⟨fun v hv hne => ?_, fun hnone => ?_⟩, by decide⟩
  · simp only [decodeHash, hlen, reduceIte, hv]
    rw [if_pos (by simpa [argon2Version] using hne)]
  · simp only [decodeHash, hlen, reduceIte, hnone]

/-- Witness for C5: version 18 is rejected as incompatible, a non-numeric
version field as an invalid hash format. -/
theorem decode_version_errors_witness :
    decodeHash "argon2id$18$65536$3$2$AA$AA".toList = .error .incompatibleVersion ∧
    decodeHash "argon2id$vv$65536$3$2$AA$AA".toList = .error .invalidHash :=
  ⟨(decode_version_errors.1 _ (by decide)).1 18 (by decide) (by decide),
    (decode_version_errors.1 _ (by decide)).2 (by decide)⟩

/-- C6: decodeHash fails with the invalid-hash-format error when the token
does not split on the dollar separator into exactly 7 fields, when the
memory, iterations or parallelism field fails to parse as an integer
(with the earlier fields well formed, following the sequential checks of
the source), or when the salt or key field fails to decode as unpadded
base64. -/
theorem decode_malformed_token_errors :
    (∀ t : List Char, (splitD t).length ≠ 7 → decodeHash t = .error .invalidHash) ∧
    (∀ t : List Char, (splitD t).length = 7 →
      atoi ((splitD t).getD 1 []) = some 19 →
      ((atoi ((splitD t).getD 2 []) = none → decodeHash t = .error .invalidHash) ∧
        ∀ m : Int, atoi ((splitD t).getD 2 []) = some m →
        ((atoi ((splitD t).getD 3 []) = none → decodeHash t = .error .invalidHash) ∧
          ∀ i : Int, atoi ((splitD t).getD 3 []) = some i →
          ((atoi ((splitD t).getD 4 []) = none → decodeHash t = .error .invalidHash) ∧
            ∀ pl : Int, atoi ((splitD t).getD 4 []) = some pl →
            ((b64Decode ((splitD t).getD 5 []) = none →
                decodeHash t = .error .invalidHash) ∧
              ∀ s : List Nat, b64Decode ((splitD t).getD 5 []) = some s →
              (b64Decode ((splitD t).getD 6 []) = none →
                decodeHash t = .error .invalidHash)))))) := by
  constructor
  · intro t hlen
    simp only [decodeHash]
    rw [if_neg hlen]
  · intro t hlen hv
    refine ⟨fun hm0 => ?_, fun m hm => ⟨fun hi0 => ?_, fun i hi =>
      ⟨fun hp0 => ?_, fun pl hpl => ⟨fun hs0 => ?_, fun s hs => fun hk0 => ?_⟩⟩⟩⟩
    · simp only [decodeHash, hlen, reduceIte, hv, hm0]
      rw [if_neg (by simp [argon2Version])]
    · simp only [decodeHash, hlen, reduceIte, hv, hm, hi0]
      rw [if_neg (by simp [argon2Version])]
    · simp only [decodeHash, hlen, reduceIte, hv, hm, hi, hp0]
      rw [if_neg (by simp [argon2Version])]
    · simp only [decodeHash, hlen, reduceIte, hv, hm, hi, hpl, hs0]
      rw [if_neg (by simp [argon2Version])]
    · simp only [decodeHash, hlen, reduceIte, hv, hm, hi, hpl, hs, hk0]
      rw [if_neg (by simp [argon2Version])]

/-- Witness for C6: a 2-field token, non-numeric memory, iteration and
parallelism fields, and invalid base64 in the salt and key fields, each
rejected with the invalid-hash-format error. -/
theorem decode_malformed_token_errors_witness :
    decodeHash "a$b".toList = .error .invalidHash ∧
    decodeHash "argon2id$19$xx$3$2$AA$AA".toList = .error .invalidHash ∧
    decodeHash "argon2id$19$65536$xx$2$AA$AA".toList = .error .invalidHash ∧
    decodeHash "argon2id$19$65536$3$xx$AA$AA".toList = .error .invalidHash ∧
    decodeHash "argon2id$19$65536$3$2$!!$AA".toList = .error .invalidHash ∧
    decodeHash "argon2id$19$65536$3$2$AA$!".toList = .error .invalidHash :=
  ⟨decode_malformed_token_errors.1 "a$b".toList (by decide),
    (decode_malformed_token_errors.2 _ (by decide) (by decide)).1 (by decide),
    ((decode_malformed_token_errors.2 _ (by decide) (by decide)).2 65536
      (by decide)).1 (by decide),
    (((decode_malformed_token_errors.2 _ (by decide) (by decide)).2 65536
      (by decide)).2 3 (by decide)).1 (by decide),
    ((((decode_malformed_token_errors.2 _ (by decide) (by decide)).2 65536
      (by decide)).2 3 (by decide)).2 2 (by decide)).1 (by decide),
    (((((decode_malformed_token_errors.2 _ (by decide) (by decide)).2 65536
      (by decide)).2 3 (by decide)).2 2 (by decide)).2 [0] (by decide)) (by decide)⟩

/-- C7: every token decodeHash accepts yields a parameter set whose
SaltLength and KeyLength equal the byte lengths of the decoded salt and key
payloads; decodeHash applies no minimum-floor validation (a token with
memory 1024, zero iterations, zero threads, a 1-byte salt and a 1-byte key
decodes successfully); and the spec's example token decodes to
memoryCost 65536, iterations 3, parallelism 2, saltLength 16, keyLength 32
with the exact salt and key bytes of the repository's own test vector. -/
theorem decode_lengths_and_no_floor_validation :
    (∀ (t : List Char) (p : Params) (s k : List Nat),
      decodeHash t = .ok (p, s, k) →
      p.SaltLength = s.length ∧ p.KeyLength = k.length) ∧
    decodeHash
        "argon2id$19$65536$3$2$y9Mjl5CpHgKbRjloFZ5Agg$OuEhb6CmIeCMC3Jx3RgJFoeUSwo7S9OTrq20pFW/Fck".toList =
      .ok ({ Memory := 65536, Iterations := 3, Threads := 2,
             SaltLength := 16, KeyLength := 32 },
        [203, 211, 35, 151, 144, 169, 30, 2, 155, 70, 57, 104, 21, 158, 64, 130],
        [58, 225, 33, 111, 160, 166, 33, 224, 140, 11, 114, 113, 221, 24, 9, 22,
          135, 148, 75, 10, 59, 75, 211, 147, 174, 173, 180, 164, 85, 191, 21, 201]) ∧
    decodeHash "argon2id$19$1024$0$0$AA$AA".toList =
      .ok ({ Memory := 1024, Iterations := 0, Threads := 0,
             SaltLength := 1, KeyLength := 1 }, [0], [0]) := by
  refine ⟨fun t p s k h => ?_, by decide, by decide⟩
  simp only [decodeHash] at h
  repeat' split at h
  any_goals exact (Except.noConfusion h)
  injection h with h'
  rw [Prod.mk.injEq, Prod.mk.injEq] at h'
  obtain ⟨hp, hs, hk⟩ := h'
  subst hp
  subst hs
  subst hk
  exact ⟨rfl, rfl⟩

/-- Witness for C7: the length recovery applied to the spec's example
token. -/
theorem decode_lengths_and_no_floor_validation_witness :
    ({ Memory := 65536, Iterations := 3, Threads := 2,
       SaltLength := 16, KeyLength := 32 } : Params).SaltLength =
      [203, 211, 35, 151, 144, 169, 30, 2, 155, 70, 57, 104, 21, 158, 64,
        130].length ∧
    ({ Memory := 65536, Iterations := 3, Threads := 2,
       SaltLength := 16, KeyLength := 32 } : Params).KeyLength =
      [58, 225, 33, 111, 160, 166, 33, 224, 140, 11, 114, 113, 221, 24, 9, 22,
        135, 148, 75, 10, 59, 75, 211, 147, 174, 173, 180, 164, 85, 191, 21,
        201].length :=
  decode_lengths_and_no_floor_validation.1
    "argon2id$19$65536$3$2$y9Mjl5CpHgKbRjloFZ5Agg$OuEhb6CmIeCMC3Jx3RgJFoeUSwo7S9OTrq20pFW/Fck".toList
    _ _ _ (by decide)

/-- C9: a memory, iterations or parallelism field that parses as an integer
is stored through Go's uint32/uint8 conversions, i.e. reduced modulo 2^32
(memory, iterations) or 2^8 (parallelism), never rejected for being out of
the unsigned range: decoding succeeds whenever the other fields are well
formed; in particular a memory field of "-1" yields 4294967295, and a
parallelism field of "256" yields 0. -/
theorem decode_out_of_range_wraparound :
    (∀ (t : List Char) (m i pl : Int) (s k : List Nat),
      (splitD t).length = 7 →
      atoi ((splitD t).getD 1 []) = some 19 →
      atoi ((splitD t).getD 2 []) = some m →
      atoi ((splitD t).getD 3 []) = some i →
      atoi ((splitD t).getD 4 []) = some pl →
      b64Decode ((splitD t).getD 5 []) = some s →
      b64Decode ((splitD t).getD 6 []) = some k →
      decodeHash t = .ok ({ Memory := (m % (2 ^ 32 : Int)).toNat,
                            Iterations := (i % (2 ^ 32 : Int)).toNat,
                            Threads := (pl % (2 ^ 8 : Int)).toNat,
                            SaltLength := s.length,
                            KeyLength := k.length }, s, k)) ∧
    decodeHash "argon2id$19$-1$3$2$AA$AA".toList =
      .ok ({ Memory := 4294967295, Iterations := 3, Threads := 2,
             SaltLength := 1, KeyLength := 1 }, [0], [0]) ∧
    decodeHash "argon2id$19$65536$3$256$AA$AA".toList =
      .ok ({ Memory := 65536, Iterations := 3, Threads := 0,
             SaltLength := 1, KeyLength := 1 }, [0], [0]) := by
  refine ⟨fun t m i pl s k hlen hv hm hi hpl hs hk => ?_, by decide, by decide⟩
  simp only [decodeHash, hlen, reduceIte, hv, hm, hi, hpl, hs, hk]
  rw [if_neg (by simp [argon2Version])]

/-- Witness for C9: the wraparound characterization applied to the token
with memory field "-1". -/
theorem decode_out_of_range_wraparound_witness :
    decodeHash "argon2id$19$-1$3$2$AA$AA".toList =
      .ok ({ Memory := ((-1 : Int) % (2 ^ 32 : Int)).toNat,
             Iterations := ((3 : Int) % (2 ^ 32 : Int)).toNat,
             Threads := ((2 : Int) % (2 ^ 8 : Int)).toNat,
             SaltLength := ([0] : List Nat).length,
             KeyLength := ([0] : List Nat).length }, [0], [0]) :=
  decode_out_of_range_wraparound.1 "argon2id$19$-1$3$2$AA$AA".toList
    (-1) 3 2 [0] [0] (by decide) (by decide) (by decide) (by decide)
    (by decide) (by decide) (by decide)

/-- C10: decodeHash never inspects the first (algorithm-tag) field: two
tokens differing only in their separator-free tag decode to identical
results, and concrete tokens tagged "bcrypt" or carrying an empty tag are
accepted exactly like "argon2id"-tagged ones. -/
theorem decode_ignores_algorithm_tag :
    (∀ tag1 tag2 rest : List Char, '$' ∉ tag1 → '$' ∉ tag2 →
      decodeHash (tag1 ++ '$' :: rest) = decodeHash (tag2 ++ '$' :: rest)) ∧
    decodeHash "bcrypt$19$65536$3$2$AA$AA".toList =
      .ok ({ Memory := 65536, Iterations := 3, Threads := 2,
             SaltLength := 1, KeyLength := 1 }, [0], [0]) ∧
    decodeHash "$19$65536$3$2$AA$AA".toList =
      .ok ({ Memory := 65536, Iterations := 3, Threads := 2,
             SaltLength := 1, KeyLength := 1 }, [0], [0]) := by
  refine ⟨fun tag1 tag2 rest h1 h2 => ?_, by decide, by decide⟩
  have g1 : ∀ (a : List Char) (l : List (List Char)), (a :: l).getD 1 [] = l.getD 0 [] :=
    fun a l => rfl
  have g2 : ∀ (a : List Char) (l : List (List Char)), (a :: l).getD 2 [] = l.getD 1 [] :=
    fun a l => rfl
  have g3 : ∀ (a : List Char) (l : List (List Char)), (a :: l).getD 3 [] = l.getD 2 [] :=
    fun a l => rfl
  have g4 : ∀ (a : List Char) (l : List (List Char)), (a :: l).getD 4 [] = l.getD 3 [] :=
    fun a l => rfl
  have g5 : ∀ (a : List Char) (l : List (List Char)), (a :: l).getD 5 [] = l.getD 4 [] :=
    fun a l => rfl
  have g6 : ∀ (a : List Char) (l : List (List Char)), (a :: l).getD 6 [] = l.getD 5 [] :=
    fun a l => rfl
  simp only [decodeHash, splitD_append _ _ h1, splitD_append _ _ h2,
    List.length_cons, g1, g2, g3, g4, g5, g6]

/-- Witness for C10: a "bcrypt" tag decodes identically to an "argon2id"
tag over the same remaining six fields. -/
theorem decode_ignores_algorithm_tag_witness :
    decodeHash ("bcrypt".toList ++ '$' :: "19$65536$3$2$AA$AA".toList) =
      decodeHash ("argon2id".toList ++ '$' :: "19$65536$3$2$AA$AA".toList) :=
  decode_ignores_algorithm_tag.1 "bcrypt".toList "argon2id".toList
    "19$65536$3$2$AA$AA".toList (by decide) (by decide)

end Argon2Hashing
